import Mathlib

/-!
# Verification of the Markov-Pilot actor-critic learning engine

Shallow embedding of `src/gym_jsbsim/learn/ddpg_torch_eee.py`: the
Ornstein-Uhlenbeck exploration-noise process, the circular replay buffer,
the DDPG / MADDPG learning-step skeleton (TD-target construction, guard,
soft target-network updates), action selection, and model persistence.

Modelling conventions:
* floats are modelled as exact rationals `ℚ`;
* numpy / torch batched tensors are row-major `List (List ℚ)` (one inner
  list per batch row), 1-D tensors are `List ℚ`;
* the numpy slot arrays of the replay buffer are total maps `Nat → _`
  written with `Function.update` (slots `≥ mem_size` are never touched
  because writes go to `mem_cntr % mem_size`);
* neural-network forward passes and Adam gradient steps are not rational
  functions (tanh, sqrt, autograd), so they enter the model as explicit
  functional arguments ("oracles"); every claim proved below holds for
  ALL instantiations of these oracles, which is exactly what the claims
  about data-flow / guard structure assert;
* `np.random` draws (batch indices, normal samples) likewise enter as
  explicit arguments.
-/

/-! ## Ornstein-Uhlenbeck noise (`OUActionNoise`, source lines 13-33) -/

/-- State of `OUActionNoise`: mean `mu`, mean-reversion `theta`,
volatility `sigma`, step `dt`, optional initial value `x0`, and the
persistent previous sample `x_prev`. -/
structure OUActionNoise where
  theta : ℚ
  mu : List ℚ
  sigma : ℚ
  dt : ℚ
  x0 : Option (List ℚ)
  x_prev : List ℚ
deriving Repr

/-- `reset` (source line 28-29): `x_prev = x0 if x0 is not None else
np.zeros_like(mu)`. -/
def OUActionNoise.reset (n : OUActionNoise) : OUActionNoise :=
  { n with x_prev := n.x0.getD (n.mu.map fun _ => 0) }

/-- Elementwise body of `__call__` (source lines 22-26):
`x = x_prev + theta*(mu - x_prev)*dt + sigma*sqrt(dt)*normal`.
`sqrt_dt` stands for the value of `np.sqrt(dt)` and `normal` for the
vector drawn by `np.random.normal(size=mu.shape)`; both are inputs to the
model.  Returns the updated noise state (new `x_prev`) and the returned
vector `x`. -/
def OUActionNoise.call (n : OUActionNoise) (sqrt_dt : ℚ) (normal : List ℚ) :
    OUActionNoise × List ℚ :=
  let x := List.zipWith3
    (fun xp m z => xp + n.theta * (m - xp) * n.dt + n.sigma * sqrt_dt * z)
    n.x_prev n.mu normal
  ({ n with x_prev := x }, x)

/-! ## Replay buffer (`ReplayBuffer`, source lines 35-70) -/

/-- The replay buffer: capacity `mem_size`, monotone write counter
`mem_cntr`, and the five parallel slot arrays. -/
structure ReplayBuffer where
  mem_size : ℕ
  mem_cntr : ℕ
  obs_memory : ℕ → List ℚ
  obs_next_memory : ℕ → List ℚ
  action_memory : ℕ → List ℚ
  reward_memory : ℕ → ℚ
  terminal_memory : ℕ → ℚ

/-- `store_transition` (source lines 45-52): writes all five fields at
`index = mem_cntr % mem_size`, storing the done flag inverted
(`1 - done`), then increments `mem_cntr`. -/
def ReplayBuffer.store_transition (b : ReplayBuffer)
    (obs action : List ℚ) (reward : ℚ) (obs_next : List ℚ) (done : Bool) :
    ReplayBuffer :=
  let index := b.mem_cntr % b.mem_size
  { b with
    obs_memory := Function.update b.obs_memory index obs
    obs_next_memory := Function.update b.obs_next_memory index obs_next
    action_memory := Function.update b.action_memory index action
    reward_memory := Function.update b.reward_memory index reward
    terminal_memory :=
      Function.update b.terminal_memory index (1 - (if done then 1 else 0))
    mem_cntr := b.mem_cntr + 1 }

/-- The five parallel arrays gathered at the sampled indices, as returned
by `get_samples_from_buffer` (source lines 62-70). -/
structure Samples where
  obs : List (List ℚ)
  actions : List (List ℚ)
  reward : List ℚ
  obs_next : List (List ℚ)
  terminal : List ℚ
deriving Inhabited

/-- `get_samples_from_buffer(batch_idxs)` (source lines 62-70): numpy
fancy indexing of the five arrays by the same index list. -/
def ReplayBuffer.get_samples_from_buffer (b : ReplayBuffer)
    (batch_idxs : List ℕ) : Samples :=
  { obs := batch_idxs.map b.obs_memory
    actions := batch_idxs.map b.action_memory
    reward := batch_idxs.map b.reward_memory
    obs_next := batch_idxs.map b.obs_next_memory
    terminal := batch_idxs.map b.terminal_memory }

/-- A transition as passed to `store_transition`. -/
structure Transition where
  obs : List ℚ
  action : List ℚ
  reward : ℚ
  obs_next : List ℚ
  done : Bool
deriving Inhabited

/-- Folding `store_transition` over a sequence of transitions. -/
def storeAll (b : ReplayBuffer) (ts : List Transition) : ReplayBuffer :=
  ts.foldl (fun b t => b.store_transition t.obs t.action t.reward t.obs_next t.done) b

/-! ## TD-target construction (source lines 296 and 528) -/

/-- Elementwise TD target
`target_value = reward + gamma * target_critic_next_value * done_mask`
(source line 528 for `Agent_Single.learn`, line 296 for
`Agent_Multi.learn`; the `.view(batch_size, 1)` reshapes make the torch
expression elementwise over the batch). -/
def tdTargetVec (gamma : ℚ) : List ℚ → List ℚ → List ℚ → List ℚ
  | r :: rs, q :: qs, d :: ds => (r + gamma * q * d) :: tdTargetVec gamma rs qs ds
  | _, _, _ => []

/-- TD target of `Agent_Single.learn` (source lines 524-528):
`target_next_actions = target_actor(new_state)` (line 524),
`target_critic_next_value = target_critic(new_state, target_next_actions)`
(line 525), then `target_value = reward + gamma * target_critic_next_value
* done` (line 528).  The two forward passes are abstract inputs. -/
def singleTDTarget (gamma : ℚ)
    (target_actor_fwd : List (List ℚ) → List (List ℚ))
    (target_critic_fwd : List (List ℚ) → List (List ℚ) → List ℚ)
    (s : Samples) : List ℚ :=
  let target_next_actions := target_actor_fwd s.obs_next
  let target_critic_next_value := target_critic_fwd s.obs_next target_next_actions
  tdTargetVec gamma s.reward target_critic_next_value s.terminal

/-! ## Value-level `torch.cat` on row-major batched tensors -/

/-- `torch.cat(ts, dim=1)` on conforming row-major tensors: rowwise
concatenation of the feature columns. -/
def catDim1 : List (List (List ℚ)) → List (List ℚ)
  | [] => []
  | [t] => t
  | t :: ts => List.zipWith (· ++ ·) t (catDim1 ts)

/-- `torch.cat(ts)` with the default `dim=0`: stacking along the batch
dimension. -/
def catDim0 (ts : List (List (List ℚ))) : List (List ℚ) :=
  ts.flatten

/-! ## Multi-agent TD target (`Agent_Multi.learn`, source lines 267-296) -/

/-- `target_critic_next_value` of `Agent_Multi.learn` (source lines
279-294): from the per-agent fetched samples, build
`new_state_t = cat(new_obs_n_t, dim=1)`, evaluate every agent's target
actor on its own next-observations, pop the updating agent's next action,
build `input_target_value_fn = cat([new_state_t, cat(others)], dim=1)`,
and feed the result together with the own next action to the updating
agent's target critic.  `target_critic_fwd` is the (abstract) forward
pass of `self.target_critic`, `target_actor_fwds` the per-agent
`ag.agent.target_actor.forward` functions in agent-list order. -/
def multiTQ (target_critic_fwd : List (List ℚ) → List (List ℚ) → List ℚ)
    (target_actor_fwds : List (List (List ℚ) → List (List ℚ)))
    (samples_n : List Samples) (own_idx : ℕ) : List ℚ :=
  let new_obs_n := samples_n.map Samples.obs_next
  let new_state := catDim1 new_obs_n
  let target_next_action_n := List.zipWith (fun f x => f x) target_actor_fwds new_obs_n
  let own_next_action := target_next_action_n.getD own_idx []
  let others := target_next_action_n.eraseIdx own_idx
  let input_target_value_fn := catDim1 [new_state, catDim0 others]
  target_critic_fwd input_target_value_fn own_next_action

/-- `target_value` of `Agent_Multi.learn` (source line 296):
`rwd_n_t[own_idx] + gamma * target_critic_next_value * done_n_t[own_idx]`,
elementwise over the batch — only the updating agent's own rewards and
continuation masks enter. -/
def multiTDTarget (gamma : ℚ)
    (target_critic_fwd : List (List ℚ) → List (List ℚ) → List ℚ)
    (target_actor_fwds : List (List (List ℚ) → List (List ℚ)))
    (samples_n : List Samples) (own_idx : ℕ) : List ℚ :=
  tdTargetVec gamma ((samples_n.getD own_idx default).reward)
    (multiTQ target_critic_fwd target_actor_fwds samples_n own_idx)
    ((samples_n.getD own_idx default).terminal)

/-- The TD target of `Agent_Multi.learn` as a function of the per-agent
replay buffers and the shared sampled indices (source lines 267-296:
`get_samples_from_buffer(batch_idxs)` is applied to every agent's buffer
with the same `batch_idxs`). -/
def multiLearnTDTarget (gamma : ℚ)
    (target_critic_fwd : List (List ℚ) → List (List ℚ) → List ℚ)
    (target_actor_fwds : List (List (List ℚ) → List (List ℚ)))
    (buffers : List ReplayBuffer) (batch_idxs : List ℕ) (own_idx : ℕ) :
    List ℚ :=
  multiTDTarget gamma target_critic_fwd target_actor_fwds
    (buffers.map (fun m => m.get_samples_from_buffer batch_idxs)) own_idx

/-! ## Networks and the target-network synchronizer -/

/-- The four parameter sets of an agent, each a map from parameter name
to (flattened, per-component) value.  The soft update iterates over the
parameter names of the online network and blends into the target network
name by name (source lines 331-354), so a name-indexed map of components
is the faithful state model. -/
structure AgentNets where
  actor : String → ℚ
  critic : String → ℚ
  target_actor : String → ℚ
  target_critic : String → ℚ

/-- `_update_network_parameters(tau)` (source lines 331-354): for every
parameter name, `target ← tau * online + (1 - tau) * target`, applied
independently to the critic/target-critic and actor/target-actor pairs
(`load_state_dict` then installs the blended dicts). -/
def update_network_parameters (n : AgentNets) (tau : ℚ) : AgentNets :=
  { n with
    target_critic := fun name => tau * n.critic name + (1 - tau) * n.target_critic name
    target_actor := fun name => tau * n.actor name + (1 - tau) * n.target_actor name }

/-- Scalar soft-update blend applied to each parameter component by
`_update_network_parameters` (source lines 346-347 and 352-353). -/
def softBlend (tau online target : ℚ) : ℚ :=
  tau * online + (1 - tau) * target

/-! ## Agent state and the learning step -/

/-- The mutable state of an agent that a `learn` call may touch: the
replay buffer, the four networks' parameters, the two optimizer states
(abstracted as value lists), and the hyperparameters. -/
structure AgentState where
  memory : ReplayBuffer
  batch_size : ℕ
  gamma : ℚ
  tau : ℚ
  nets : AgentNets
  actor_opt : List ℚ
  critic_opt : List ℚ

/-- The non-rational ingredients of a learning step, supplied as
oracles: the batch indices drawn by `np.random.choice`, the actor and
critic forward passes (parameterized by the network's parameter map),
and the Adam optimizer steps (parameterized by the loss inputs; autograd
is not a rational function, so the step is abstract). -/
structure LearnOracles where
  batch_idxs : List ℕ
  actor_fwd : (String → ℚ) → List (List ℚ) → List (List ℚ)
  critic_fwd : (String → ℚ) → List (List ℚ) → List (List ℚ) → List ℚ
  critic_step : (String → ℚ) → List ℚ → List ℚ → List ℚ → (String → ℚ) × List ℚ
  actor_step : (String → ℚ) → List ℚ → List ℚ → (String → ℚ) × List ℚ

/-- Body of `Agent_Single.learn` after the guard (source lines 511-556):
sample, fetch, compute the TD target `target_value = reward + gamma *
target_critic(new_state, target_actor(new_state)) * done`, take a critic
optimizer step on the MSE between target and online critic value, then
an actor step on `-critic(state, actor(state))` (against the already
stepped critic, line 549), then the soft target update with the standard
`tau` (line 556). -/
def singleLearnBody (a : AgentState) (or : LearnOracles) : AgentState :=
  let s := a.memory.get_samples_from_buffer or.batch_idxs
  let critic_value := or.critic_fwd a.nets.critic s.obs s.actions
  let target_value := singleTDTarget a.gamma (or.actor_fwd a.nets.target_actor)
    (or.critic_fwd a.nets.target_critic) s
  let stepped_critic := or.critic_step a.nets.critic a.critic_opt target_value critic_value
  let mu := or.actor_fwd a.nets.actor s.obs
  let actor_performance := or.critic_fwd stepped_critic.1 s.obs mu
  let stepped_actor := or.actor_step a.nets.actor a.actor_opt actor_performance
  let nets1 : AgentNets :=
    { a.nets with critic := stepped_critic.1, actor := stepped_actor.1 }
  { a with
    nets := update_network_parameters nets1 a.tau
    critic_opt := stepped_critic.2
    actor_opt := stepped_actor.2 }

/-- `Agent_Single.learn` (source lines 507-556).  The guard (lines
507-509): if `mem_cntr < batch_size`, return immediately without touching
any state. -/
def Agent_Single.learn (a : AgentState) (or : LearnOracles) : AgentState :=
  if a.memory.mem_cntr < a.batch_size then a
  else singleLearnBody a or

/-- Body of `Agent_Multi.learn` after the guard (source lines 266-329):
same skeleton as the single-agent body, but the TD target comes from
`multiTDTarget` over all agents' buffers fetched at the shared indices,
and the critic inputs are the joint state with the other agents' actual
actions (own action popped, line 299-301). -/
def multiLearnBody (a : AgentState) (agents : List AgentState) (own_idx : ℕ)
    (or : LearnOracles) : AgentState :=
  let samples_n := agents.map (fun ag => ag.memory.get_samples_from_buffer or.batch_idxs)
  let target_value := multiTDTarget a.gamma
    (or.critic_fwd a.nets.target_critic)
    (agents.map (fun ag => or.actor_fwd ag.nets.target_actor))
    samples_n own_idx
  let state_t := catDim1 (samples_n.map Samples.obs)
  let actual_action_n := samples_n.map Samples.actions
  let own_actual_action := actual_action_n.getD own_idx []
  let input_value_fn := catDim1 [state_t, catDim0 (actual_action_n.eraseIdx own_idx)]
  let critic_value := or.critic_fwd a.nets.critic input_value_fn own_actual_action
  let stepped_critic := or.critic_step a.nets.critic a.critic_opt target_value critic_value
  let mu := or.actor_fwd a.nets.actor ((samples_n.getD own_idx default).obs)
  let actor_performance := or.critic_fwd stepped_critic.1 input_value_fn mu
  let stepped_actor := or.actor_step a.nets.actor a.actor_opt actor_performance
  let nets1 : AgentNets :=
    { a.nets with critic := stepped_critic.1, actor := stepped_actor.1 }
  { a with
    nets := update_network_parameters nets1 a.tau
    critic_opt := stepped_critic.2
    actor_opt := stepped_actor.2 }

/-- `Agent_Multi.learn` (source lines 263-329).  The guard (lines
263-265) is identical to the single-agent one. -/
def Agent_Multi.learn (a : AgentState) (agents : List AgentState) (own_idx : ℕ)
    (or : LearnOracles) : AgentState :=
  if a.memory.mem_cntr < a.batch_size then a
  else multiLearnBody a agents own_idx or

/-! ## Action selection (`choose_action`, source lines 242-253) -/

/-- The per-dimension affine bound transform set up at construction
(source lines 209-210): `scale = (high - low) / 2`. -/
def action_scale (low high : List ℚ) : List ℚ :=
  List.zipWith (fun l h => (h - l) / 2) low high

/-- `shift = (high + low) / 2` (source line 210). -/
def action_shift (low high : List ℚ) : List ℚ :=
  List.zipWith (fun l h => (h + l) / 2) low high

/-- `choose_action` (source lines 242-253) as a function of the raw actor
output `mu` (the tanh-bounded forward pass, abstracted as an input), the
noise draw, and the construction-time bounds: with exploration the noise
is added to the raw output first (`mu_np = mu_np + self.noise()`, line
251), and only then the affine transform `mu_np * scale + shift` (line
252) is applied; no clipping follows. -/
def choose_action (low high : List ℚ) (mu noise : List ℚ)
    (add_exploration_noise : Bool) : List ℚ :=
  let mu_np := if add_exploration_noise then List.zipWith (· + ·) mu noise else mu
  List.zipWith (fun m sc_sh => m * sc_sh.1 + sc_sh.2) mu_np
    (List.zip (action_scale low high) (action_shift low high))

/-! ## Shape-level model of the multi-agent feature concatenation

`torch.cat` raises a `RuntimeError` when the non-concatenated dimensions
of its inputs disagree.  To settle whether the concatenations in
`Agent_Multi.learn` can even produce a well-formed tensor we model the
shapes `(rows, cols)` of the 2-D tensors involved, with `none` standing
for the raised shape-mismatch error. -/

/-- `(rows, cols)` of a 2-D tensor. -/
abbrev TShape := ℕ × ℕ

/-- Shape of `torch.cat(ts, dim=0)`: all column counts must agree, row
counts add; empty input and any mismatch raise (`none`). -/
def catShape0 : List TShape → Option TShape
  | [] => none
  | [s] => some s
  | s :: ss =>
    (catShape0 ss).bind fun a => if s.2 = a.2 then some (s.1 + a.1, s.2) else none

/-- Shape of `torch.cat(ts, dim=1)`: all row counts must agree, column
counts add. -/
def catShape1 : List TShape → Option TShape
  | [] => none
  | [s] => some s
  | s :: ss =>
    (catShape1 ss).bind fun a => if s.1 = a.1 then some (s.1, s.2 + a.2) else none

/-- Shape of `input_target_value_fn` in `Agent_Multi.learn` (source lines
279-291): each agent's `new_obs` batch tensor has shape
`(batch, obs_dim)`, `new_state_t = cat(new_obs_n_t, dim=1)`; each target
actor emits `(batch, act_dim)`; the updating agent's entry is popped and
the remaining tensors go through `T.cat(target_next_action_n)` — the
DEFAULT `dim=0` — before `T.cat([new_state_t, ·], dim=1)`. -/
def inputTargetValueShape (batch : ℕ) (obs_dims act_dims : List ℕ)
    (own_idx : ℕ) : Option TShape :=
  (catShape1 (obs_dims.map fun d => (batch, d))).bind fun new_state =>
  (catShape0 ((act_dims.map fun d => ((batch, d) : TShape)).eraseIdx own_idx)).bind
    fun others_cat =>
  catShape1 [new_state, others_cat]

/-! ## Persistence (`save_models` / `init_from_save`, source lines 372-400) -/

/-- The checkpoint dict built by `save_models` (source lines 373-381):
exactly the construction hyperparameters (`init_dict`, kept abstract as a
name-to-value map) plus the four network parameter sets plus the two
optimizer states. -/
structure CheckpointDict where
  init_dict : String → ℚ
  actor : String → ℚ
  critic : String → ℚ
  target_actor : String → ℚ
  target_critic : String → ℚ
  actor_optimizer : List ℚ
  critic_optimizer : List ℚ

/-- `torch.save(obj, f)` requires the target file as a second positional
argument; calling it with only the object is a `TypeError`.  The model
takes the file argument as an `Option` so that the call sites of the
source can be transcribed verbatim. -/
def torch_save (_obj : CheckpointDict) (f : Option String) :
    Except String Unit :=
  match f with
  | some _ => Except.ok ()
  | none => Except.error "TypeError: save() missing 1 required positional argument"

/-- `save_models(filename)` (source lines 372-383): builds the checkpoint
dict and calls `T.save(agent_networks_state_dict)` — with NO file
argument (line 383); the `filename` parameter is never forwarded. -/
def save_models (a : AgentState) (init_dict : String → ℚ)
    (_filename : String) : Except String Unit :=
  let agent_networks_state_dict : CheckpointDict :=
    { init_dict := init_dict
      actor := a.nets.actor
      critic := a.nets.critic
      target_actor := a.nets.target_actor
      target_critic := a.nets.target_critic
      actor_optimizer := a.actor_opt
      critic_optimizer := a.critic_opt }
  torch_save agent_networks_state_dict none

/-! ## Helper lemmas -/

/-- Elementwise reading of `tdTargetVec`. -/
theorem tdTargetVec_getD (g : ℚ) (rs qs ds : List ℚ) (i : ℕ)
    (h1 : i < rs.length) (h2 : i < qs.length) (h3 : i < ds.length) :
    (tdTargetVec g rs qs ds).getD i 0 =
      rs.getD i 0 + g * qs.getD i 0 * ds.getD i 0 := by
  induction rs generalizing qs ds i with
  | nil => simp at h1
  | cons r rs ih =>
    cases qs with
    | nil => simp at h2
    | cons q qs =>
      cases ds with
      | nil => simp at h3
      | cons d ds =>
        cases i with
        | zero => simp [tdTargetVec]
        | succ i =>
          simp only [tdTargetVec, List.getD_cons_succ]
          exact ih qs ds i (by simpa using h1) (by simpa using h2) (by simpa using h3)

/-- Elementwise reading of `List.zipWith`. -/
theorem zipWith_getD {α β γ : Type} (f : α → β → γ) (da : α) (db : β) (dc : γ)
    (xs : List α) (ys : List β) (i : ℕ)
    (hx : i < xs.length) (hy : i < ys.length) :
    (List.zipWith f xs ys).getD i dc = f (xs.getD i da) (ys.getD i db) := by
  induction xs generalizing ys i with
  | nil => simp at hx
  | cons x xs ih =>
    cases ys with
    | nil => simp at hy
    | cons y ys =>
      cases i with
      | zero => simp
      | succ i =>
        simp only [List.zipWith_cons_cons, List.getD_cons_succ]
        exact ih ys i (by simpa using hx) (by simpa using hy)

/-- Elementwise reading of `List.zipWith3`. -/
theorem zipWith3_getD {α β γ δ : Type} (f : α → β → γ → δ)
    (da : α) (db : β) (dc : γ) (dd : δ)
    (xs : List α) (ys : List β) (zs : List γ) (i : ℕ)
    (hx : i < xs.length) (hy : i < ys.length) (hz : i < zs.length) :
    (List.zipWith3 f xs ys zs).getD i dd =
      f (xs.getD i da) (ys.getD i db) (zs.getD i dc) := by
  induction xs generalizing ys zs i with
  | nil => simp at hx
  | cons x xs ih =>
    cases ys with
    | nil => simp at hy
    | cons y ys =>
      cases zs with
      | nil => simp at hz
      | cons z zs =>
        cases i with
        | zero => simp [List.zipWith3]
        | succ i =>
          simp only [List.zipWith3, List.getD_cons_succ]
          exact ih ys zs i (by simpa using hx) (by simpa using hy) (by simpa using hz)

/-- Elementwise reading of `List.map`. -/
theorem map_getD {α β : Type} (f : α → β) (xs : List α) (i : ℕ)
    (h : i < xs.length) (da : α) (db : β) :
    (xs.map f).getD i db = f (xs.getD i da) := by
  induction xs generalizing i with
  | nil => simp at h
  | cons x xs ih =>
    cases i with
    | zero => simp
    | succ i => simpa using ih i (by simpa using h)

/-- `zipWith3` over twice the same list, under a diagonal identity for
the combining function, is the identity. -/
theorem zipWith3_diag_id {α β : Type} (f : α → α → β → α)
    (hf : ∀ a c, f a a c = a) (l : List α) (l3 : List β)
    (hlen : l.length ≤ l3.length) :
    List.zipWith3 f l l l3 = l := by
  induction l generalizing l3 with
  | nil => simp [List.zipWith3]
  | cons x xs ih =>
    cases l3 with
    | nil => simp at hlen
    | cons z zs =>
      simp only [List.zipWith3, hf, List.cons.injEq, true_and]
      exact ih zs (by simpa using hlen)

/-! ## Claim theorems -/

/-- C1: in every learning step that passes the buffer-fill guard, the TD
target for each sampled transition is `y = reward + gamma *
target_critic(next_obs, target_actor(next_obs)) * continuation_mask`
(`singleTDTarget` is the `target_value` of `Agent_Single.learn`,
`multiTDTarget` that of `Agent_Multi.learn`); the bootstrap term is
exactly zero where the mask is `0.0` and exactly `gamma * target_q` where
it is `1.0`, for every instantiation of the network forward passes. -/
theorem c1_td_target_continuation_mask
    (gamma : ℚ)
    (fa : List (List ℚ) → List (List ℚ))
    (fc : List (List ℚ) → List (List ℚ) → List ℚ)
    (s : Samples)
    (fcM : List (List ℚ) → List (List ℚ) → List ℚ)
    (fwds : List (List (List ℚ) → List (List ℚ)))
    (sn : List Samples) (own_idx : ℕ)
    (i j : ℕ)
    (h1 : i < s.reward.length)
    (h2 : i < (fc s.obs_next (fa s.obs_next)).length)
    (h3 : i < s.terminal.length)
    (h4 : j < (sn.getD own_idx default).reward.length)
    (h5 : j < (multiTQ fcM fwds sn own_idx).length)
    (h6 : j < (sn.getD own_idx default).terminal.length) :
    ((singleTDTarget gamma fa fc s).getD i 0 =
        s.reward.getD i 0 +
          gamma * (fc s.obs_next (fa s.obs_next)).getD i 0 * s.terminal.getD i 0
      ∧ (s.terminal.getD i 0 = 0 →
          (singleTDTarget gamma fa fc s).getD i 0 = s.reward.getD i 0)
      ∧ (s.terminal.getD i 0 = 1 →
          (singleTDTarget gamma fa fc s).getD i 0 =
            s.reward.getD i 0 + gamma * (fc s.obs_next (fa s.obs_next)).getD i 0))
    ∧ ((multiTDTarget gamma fcM fwds sn own_idx).getD j 0 =
        (sn.getD own_idx default).reward.getD j 0 +
          gamma * (multiTQ fcM fwds sn own_idx).getD j 0 *
            (sn.getD own_idx default).terminal.getD j 0
      ∧ ((sn.getD own_idx default).terminal.getD j 0 = 0 →
          (multiTDTarget gamma fcM fwds sn own_idx).getD j 0 =
            (sn.getD own_idx default).reward.getD j 0)
      ∧ ((sn.getD own_idx default).terminal.getD j 0 = 1 →
          (multiTDTarget gamma fcM fwds sn own_idx).getD j 0 =
            (sn.getD own_idx default).reward.getD j 0 +
              gamma * (multiTQ fcM fwds sn own_idx).getD j 0)) := by
  have e1 : (singleTDTarget gamma fa fc s).getD i 0 =
      s.reward.getD i 0 +
        gamma * (fc s.obs_next (fa s.obs_next)).getD i 0 * s.terminal.getD i 0 :=
    tdTargetVec_getD gamma s.reward (fc s.obs_next (fa s.obs_next)) s.terminal i h1 h2 h3
  have e2 : (multiTDTarget gamma fcM fwds sn own_idx).getD j 0 =
      (sn.getD own_idx default).reward.getD j 0 +
        gamma * (multiTQ fcM fwds sn own_idx).getD j 0 *
          (sn.getD own_idx default).terminal.getD j 0 :=
    tdTargetVec_getD gamma (sn.getD own_idx default).reward
      (multiTQ fcM fwds sn own_idx) (sn.getD own_idx default).terminal j h4 h5 h6
  refine ⟨⟨e1, ?_, ?_⟩, e2, ?_, ?_⟩
  · intro h; rw [e1, h]; ring
  · intro h; rw [e1, h]; ring
  · intro h; rw [e2, h]; ring
  · intro h; rw [e2, h]; ring

/-- Witness for C1: concrete samples, networks replying constant values;
terminal transition yields exactly the reward, non-terminal yields
`reward + gamma * target_q`. -/
theorem c1_witness :
    (singleTDTarget (1/2) (fun _ => []) (fun _ _ => [3])
        ⟨[], [], [7], [], [0]⟩).getD 0 0 = (7:ℚ)
    ∧ (multiTDTarget (1/2) (fun _ _ => [4]) []
        [⟨[], [], [5], [], [1]⟩] 0).getD 0 0 = 5 + (1/2) * 4 := by
  have h := c1_td_target_continuation_mask (1/2) (fun _ => []) (fun _ _ => [3])
    ⟨[], [], [7], [], [0]⟩ (fun _ _ => [4]) [] [⟨[], [], [5], [], [1]⟩] 0 0 0
    (by decide) (by decide) (by decide) (by decide) (by decide) (by decide)
  refine ⟨h.1.2.1 (by decide), ?_⟩
  have h2 := h.2.2.2 (by decide)
  simpa using h2

/-- C5: `_update_network_parameters(tau)` sets every target parameter to
`tau * online + (1 - tau) * target`, independently for the
actor/target-actor and critic/target-critic pairs, leaves the online
parameters untouched, and with `tau = 1` (as applied once at agent
construction, source lines 238/498) the target parameters become
identical to the online parameters. -/
theorem c5_soft_update_blend (n : AgentNets) (tau : ℚ) (name : String) :
    (update_network_parameters n tau).target_actor name
        = tau * n.actor name + (1 - tau) * n.target_actor name
    ∧ (update_network_parameters n tau).target_critic name
        = tau * n.critic name + (1 - tau) * n.target_critic name
    ∧ (update_network_parameters n tau).actor = n.actor
    ∧ (update_network_parameters n tau).critic = n.critic
    ∧ (update_network_parameters n 1).target_actor = n.actor
    ∧ (update_network_parameters n 1).target_critic = n.critic := by
  refine ⟨rfl, rfl, rfl, rfl, funext fun nm => ?_, funext fun nm => ?_⟩ <;>
    simp [update_network_parameters]

/-- C8: for `0 < tau < 1` each soft-update component is the blend
`softBlend` (as applied by `_update_network_parameters`), it moves the
target monotonically toward the online value
(`|target_new - online| ≤ |target_old - online|`), and with the online
value frozen a repeated application is idempotent exactly when the target
already equals the online value — so idempotency fails whenever anything
still moves. -/
theorem c8_soft_update_contracts (tau o t : ℚ) (n : AgentNets) (name : String)
    (h0 : 0 < tau) (h1 : tau < 1) :
    (update_network_parameters n tau).target_actor name
        = softBlend tau (n.actor name) (n.target_actor name)
    ∧ (update_network_parameters n tau).target_critic name
        = softBlend tau (n.critic name) (n.target_critic name)
    ∧ |softBlend tau o t - o| ≤ |t - o|
    ∧ (softBlend tau o (softBlend tau o t) = softBlend tau o t ↔ t = o) := by
  refine ⟨rfl, rfl, ?_, ?_⟩
  · have e : softBlend tau o t - o = (1 - tau) * (t - o) := by
      unfold softBlend; ring
    rw [e, abs_mul]
    have hb : |1 - tau| ≤ 1 := by
      rw [abs_of_nonneg (by linarith)]; linarith
    exact mul_le_of_le_one_left (abs_nonneg _) hb
  · constructor
    · intro h
      have key : tau * (1 - tau) * (o - t) = 0 := by
        unfold softBlend at h; linear_combination h
      rcases mul_eq_zero.mp key with hk | hk
      · exact absurd hk (mul_ne_zero (ne_of_gt h0) (by linarith))
      · exact (sub_eq_zero.mp hk).symm
    · intro h; subst h; unfold softBlend; ring

/-- Witness for C8 at `tau = 1/2`, online `0`, target `1`. -/
theorem c8_witness :
    |softBlend (1/2) 0 1 - 0| ≤ |(1:ℚ) - 0|
    ∧ (softBlend (1/2) 0 (softBlend (1/2) 0 1) = softBlend (1/2) 0 1 ↔ (1:ℚ) = 0) := by
  have h := c8_soft_update_contracts (1/2) 0 1
    ⟨fun _ => 0, fun _ => 0, fun _ => 0, fun _ => 0⟩ "p"
    (by norm_num) (by norm_num)
  exact ⟨h.2.2.1, h.2.2.2⟩

/-- C4: when the replay-buffer fill count is below the batch size, both
`Agent_Single.learn` and `Agent_Multi.learn` return immediately: the
whole agent state (networks, optimizer states, buffer) is unchanged, for
every instantiation of the sampling / forward / optimizer oracles. -/
theorem c4_guard_noop (a : AgentState) (agents : List AgentState) (own_idx : ℕ)
    (or : LearnOracles) (h : a.memory.mem_cntr < a.batch_size) :
    Agent_Single.learn a or = a ∧ Agent_Multi.learn a agents own_idx or = a := by
  constructor <;> simp [Agent_Single.learn, Agent_Multi.learn, h]

/-- The end-to-end scenario of the spec: buffer fill count 3, batch size
4 (only shape of the state matters; oracles are arbitrary). -/
def bufC4 : ReplayBuffer :=
  ⟨10, 3, fun _ => [], fun _ => [], fun _ => [], fun _ => 0, fun _ => 0⟩

/-- Agent for the C4 witness. -/
def agentC4 : AgentState :=
  ⟨bufC4, 4, 99/100, 1/100, ⟨fun _ => 0, fun _ => 0, fun _ => 0, fun _ => 0⟩, [], []⟩

/-- Oracles for the C4 witness. -/
def oracleC4 : LearnOracles :=
  ⟨[], fun _ _ => [], fun _ _ _ => [], fun p o _ _ => (p, o), fun p o _ => (p, o)⟩

/-- Witness for C4: fill count 3 < batch size 4 gives a strict no-op. -/
theorem c4_witness :
    Agent_Single.learn agentC4 oracleC4 = agentC4
    ∧ Agent_Multi.learn agentC4 [] 0 oracleC4 = agentC4 :=
  c4_guard_noop agentC4 [] 0 oracleC4 (by decide)

/-- C7 (code bug): `save_models` (source line 383) calls
`T.save(agent_networks_state_dict)` without the required file argument —
the `filename` parameter is never forwarded — so every call fails with a
`TypeError` instead of writing a checkpoint; no checkpoint blob is ever
produced for `init_from_save` to read (which itself refers to the
undefined name `torch`, line 390).  The theorem evaluates the modelled
call on every agent / filename. -/
theorem c7_save_models_always_fails (a : AgentState) (init_dict : String → ℚ)
    (filename : String) :
    save_models a init_dict filename =
      Except.error "TypeError: save() missing 1 required positional argument" :=
  rfl

/-- Concrete noise process refuting the claimed `sample()` formula:
`mu = [0]`, `theta = 1`, `sigma = 0`, `dt = 1`, configured `x0 = [1]`. -/
def ouC6 : OUActionNoise := ⟨1, [0], 0, 1, some [1], [5]⟩

/-- Counterexample for C6: after `reset()` (which sets `x_prev = x0 =
[1]`), the `sigma = 0` sample is `x0 + theta*(mu - x0)*dt = [0]`, NOT the
claimed `mu + theta*(mu - x0)*dt = [0 + 1*(0 - 1)*1] = [-1]`. -/
theorem c6_counterexample :
    ((ouC6.reset).call 1 [0]).2 = [0]
    ∧ ((ouC6.reset).call 1 [0]).2 ≠ ([0 + 1 * (0 - 1) * 1] : List ℚ) := by
  constructor
  · simp [ouC6, OUActionNoise.reset, OUActionNoise.call, List.zipWith3]
  · simp [ouC6, OUActionNoise.reset, OUActionNoise.call, List.zipWith3]

/-- C6 as amended: after `reset()` (which sets `x_prev` to the configured
`x0` if supplied, else the zero vector of `mu`'s shape), a single
`sample()` call with `sigma = 0` returns exactly
`x0 + theta*(mu - x0)*dt` componentwise (`x0` denoting the reset value);
in the special case `x0 = mu` it returns exactly `mu`, and the returned
vector is stored as the new `x_prev`. -/
theorem c6_amended_sample_formula (n : OUActionNoise) (sqrt_dt : ℚ)
    (normal : List ℚ) (i : ℕ)
    (hs : n.sigma = 0)
    (hlen : n.mu.length ≤ normal.length)
    (hx : (n.x0.getD (n.mu.map fun _ => 0)).length = n.mu.length)
    (hi : i < n.mu.length) :
    n.reset.x_prev = n.x0.getD (n.mu.map fun _ => 0)
    ∧ ((n.reset).call sqrt_dt normal).2.getD i 0 =
        (n.x0.getD (n.mu.map fun _ => 0)).getD i 0
          + n.theta * (n.mu.getD i 0 - (n.x0.getD (n.mu.map fun _ => 0)).getD i 0) * n.dt
    ∧ (n.x0 = some n.mu → ((n.reset).call sqrt_dt normal).2 = n.mu)
    ∧ ((n.reset).call sqrt_dt normal).1.x_prev = ((n.reset).call sqrt_dt normal).2 := by
  refine ⟨rfl, ?_, ?_, rfl⟩
  · show (List.zipWith3
        (fun xp m z => xp + n.theta * (m - xp) * n.dt + n.sigma * sqrt_dt * z)
        (n.x0.getD (n.mu.map fun _ => 0)) n.mu normal).getD i 0 = _
    rw [zipWith3_getD _ 0 0 0 0 _ _ _ i (by rw [hx]; exact hi) hi
      (lt_of_lt_of_le hi hlen), hs]
    ring
  · intro h
    show List.zipWith3
        (fun xp m z => xp + n.theta * (m - xp) * n.dt + n.sigma * sqrt_dt * z)
        (n.x0.getD (n.mu.map fun _ => 0)) n.mu normal = n.mu
    rw [h, Option.getD_some]
    exact zipWith3_diag_id _ (fun a c => by rw [hs]; ring) n.mu normal hlen

/-- Witness for the amended C6 at the concrete process `ouC6`. -/
theorem c6_witness :
    ((ouC6.reset).call 1 [0]).2.getD 0 0 = 1 + 1 * (0 - 1) * 1 := by
  have h := c6_amended_sample_formula ouC6 1 [0] 0 rfl (by decide) (by decide)
    (by decide)
  simpa [ouC6] using h.2.1

/-- Reading one coordinate of `choose_action` with exploration noise. -/
theorem choose_action_getD_explore (low high mu noise : List ℚ) (i : ℕ)
    (hm : i < mu.length) (hn : i < noise.length) (hl : i < low.length)
    (hh : i < high.length) :
    (choose_action low high mu noise true).getD i 0 =
      (mu.getD i 0 + noise.getD i 0) * ((high.getD i 0 - low.getD i 0) / 2)
        + (high.getD i 0 + low.getD i 0) / 2 := by
  have hsc : i < (action_scale low high).length := by
    simp only [action_scale, List.length_zipWith]; omega
  have hsh : i < (action_shift low high).length := by
    simp only [action_shift, List.length_zipWith]; omega
  have hzip : i < (List.zip (action_scale low high) (action_shift low high)).length := by
    rw [List.length_zip]; omega
  have hmn : i < (List.zipWith (· + ·) mu noise).length := by
    rw [List.length_zipWith]; omega
  have e1 : (action_scale low high).getD i 0 = (high.getD i 0 - low.getD i 0) / 2 :=
    zipWith_getD (fun l h => (h - l) / 2) 0 0 0 low high i hl hh
  have e2 : (action_shift low high).getD i 0 = (high.getD i 0 + low.getD i 0) / 2 :=
    zipWith_getD (fun l h => (h + l) / 2) 0 0 0 low high i hl hh
  have tz : (List.zip (action_scale low high) (action_shift low high)).getD i (0, 0)
      = ((action_scale low high).getD i 0, (action_shift low high).getD i 0) :=
    zipWith_getD Prod.mk 0 0 ((0:ℚ), (0:ℚ)) _ _ i hsc hsh
  have tmn : (List.zipWith (· + ·) mu noise).getD i 0 = mu.getD i 0 + noise.getD i 0 :=
    zipWith_getD (· + ·) 0 0 0 mu noise i hm hn
  have t1 : (choose_action low high mu noise true).getD i 0 =
      ((List.zipWith (· + ·) mu noise).getD i 0) *
          ((List.zip (action_scale low high) (action_shift low high)).getD i (0, 0)).1
        + ((List.zip (action_scale low high) (action_shift low high)).getD i (0, 0)).2 :=
    zipWith_getD (fun (m : ℚ) (sc_sh : ℚ × ℚ) => m * sc_sh.1 + sc_sh.2) 0 ((0:ℚ), (0:ℚ)) 0 _ _ i hmn hzip
  rw [t1, tmn, tz, e1, e2]

/-- Reading one coordinate of `choose_action` without exploration noise. -/
theorem choose_action_getD_greedy (low high mu noise : List ℚ) (i : ℕ)
    (hm : i < mu.length) (hl : i < low.length) (hh : i < high.length) :
    (choose_action low high mu noise false).getD i 0 =
      mu.getD i 0 * ((high.getD i 0 - low.getD i 0) / 2)
        + (high.getD i 0 + low.getD i 0) / 2 := by
  have hsc : i < (action_scale low high).length := by
    simp only [action_scale, List.length_zipWith]; omega
  have hsh : i < (action_shift low high).length := by
    simp only [action_shift, List.length_zipWith]; omega
  have hzip : i < (List.zip (action_scale low high) (action_shift low high)).length := by
    rw [List.length_zip]; omega
  have e1 : (action_scale low high).getD i 0 = (high.getD i 0 - low.getD i 0) / 2 :=
    zipWith_getD (fun l h => (h - l) / 2) 0 0 0 low high i hl hh
  have e2 : (action_shift low high).getD i 0 = (high.getD i 0 + low.getD i 0) / 2 :=
    zipWith_getD (fun l h => (h + l) / 2) 0 0 0 low high i hl hh
  have tz : (List.zip (action_scale low high) (action_shift low high)).getD i (0, 0)
      = ((action_scale low high).getD i 0, (action_shift low high).getD i 0) :=
    zipWith_getD Prod.mk 0 0 ((0:ℚ), (0:ℚ)) _ _ i hsc hsh
  have t1 : (choose_action low high mu noise false).getD i 0 =
      (mu.getD i 0) *
          ((List.zip (action_scale low high) (action_shift low high)).getD i (0, 0)).1
        + ((List.zip (action_scale low high) (action_shift low high)).getD i (0, 0)).2 :=
    zipWith_getD (fun (m : ℚ) (sc_sh : ℚ × ℚ) => m * sc_sh.1 + sc_sh.2) 0 ((0:ℚ), (0:ℚ)) 0 _ _ i hm hzip
  rw [t1, tz, e1, e2]

/-- C9: with exploration the noise is added to the raw actor output
BEFORE the affine bound transform — the returned coordinate is
`(mu + noise) * (high - low)/2 + (high + low)/2` with no clipping — so
whenever `low < high` some noise value pushes the returned action
strictly above `high`; with exploration disabled and the raw output in
`[-1, 1]` (the tanh range) the returned coordinate always stays inside
`[low, high]`. -/
theorem c9_choose_action_bounds (low high mu : List ℚ) (i : ℕ)
    (hm : i < mu.length) (hl : i < low.length) (hh : i < high.length) :
    (∀ noise : List ℚ, i < noise.length →
        (choose_action low high mu noise true).getD i 0 =
          (mu.getD i 0 + noise.getD i 0) * ((high.getD i 0 - low.getD i 0) / 2)
            + (high.getD i 0 + low.getD i 0) / 2)
    ∧ (∀ noise : List ℚ,
        (choose_action low high mu noise false).getD i 0 =
          mu.getD i 0 * ((high.getD i 0 - low.getD i 0) / 2)
            + (high.getD i 0 + low.getD i 0) / 2)
    ∧ (low.getD i 0 < high.getD i 0 →
        ∃ noise : List ℚ, i < noise.length ∧
          high.getD i 0 < (choose_action low high mu noise true).getD i 0)
    ∧ (low.getD i 0 ≤ high.getD i 0 → -1 ≤ mu.getD i 0 → mu.getD i 0 ≤ 1 →
        ∀ noise : List ℚ,
          low.getD i 0 ≤ (choose_action low high mu noise false).getD i 0
          ∧ (choose_action low high mu noise false).getD i 0 ≤ high.getD i 0) := by
  refine ⟨fun noise hn => choose_action_getD_explore low high mu noise i hm hn hl hh,
    fun noise => choose_action_getD_greedy low high mu noise i hm hl hh, ?_, ?_⟩
  · intro hlh
    refine ⟨mu.map (fun x => 2 - x), by simpa using hm, ?_⟩
    rw [choose_action_getD_explore low high mu _ i hm (by simpa using hm) hl hh,
      map_getD (fun x => 2 - x) mu i hm 0 0]
    nlinarith [hlh]
  · intro h1 h2 h3 noise
    rw [choose_action_getD_greedy low high mu noise i hm hl hh]
    constructor
    · nlinarith [mul_nonneg (show (0:ℚ) ≤ (high.getD i 0 - low.getD i 0) / 2 by linarith)
        (show (0:ℚ) ≤ mu.getD i 0 + 1 by linarith)]
    · nlinarith [mul_nonneg (show (0:ℚ) ≤ (high.getD i 0 - low.getD i 0) / 2 by linarith)
        (show (0:ℚ) ≤ 1 - mu.getD i 0 by linarith)]

/-- Witness for C9: bounds `[0, 2]`, raw output `1/2`; noise `1` sends
the action to `(1/2 + 1) * 1 + 1 = 5/2 > 2`; without noise it stays in
`[0, 2]`. -/
theorem c9_witness :
    (choose_action [0] [2] [1/2] [1] true).getD 0 0
        = ((1:ℚ)/2 + 1) * ((2 - 0) / 2) + (2 + 0) / 2
    ∧ (∃ noise : List ℚ, 0 < noise.length ∧
        (2:ℚ) < (choose_action [0] [2] [1/2] noise true).getD 0 0)
    ∧ ((0:ℚ) ≤ (choose_action [0] [2] [1/2] [] false).getD 0 0
        ∧ (choose_action [0] [2] [1/2] [] false).getD 0 0 ≤ 2) := by
  have h := c9_choose_action_bounds [0] [2] [1/2] 0 (by decide) (by decide) (by decide)
  refine ⟨?_, ?_, ?_⟩
  · simpa using h.1 [1] (by decide)
  · obtain ⟨ns, hn, hgt⟩ := h.2.2.1 (by norm_num)
    exact ⟨ns, hn, by simpa using hgt⟩
  · have h4 := h.2.2.2 (by norm_num) (by norm_num) (by norm_num) []
    exact ⟨by simpa using h4.1, by simpa using h4.2⟩

/-- `multiTDTarget` reads the per-agent samples only through the
next-observations of all agents and the updating agent's own reward and
continuation-mask columns. -/
theorem multiTDTarget_congr (g : ℚ)
    (fc : List (List ℚ) → List (List ℚ) → List ℚ)
    (fwds : List (List (List ℚ) → List (List ℚ)))
    (s s' : List Samples) (own : ℕ)
    (h1 : s.map Samples.obs_next = s'.map Samples.obs_next)
    (hr : (s.getD own default).reward = (s'.getD own default).reward)
    (ht : (s.getD own default).terminal = (s'.getD own default).terminal) :
    multiTDTarget g fc fwds s own = multiTDTarget g fc fwds s' own := by
  simp only [multiTDTarget, multiTQ]
  rw [h1, hr, ht]

/-- C3: the TD target computed by `Agent_Multi.learn` for the agent at
`own_idx` is unchanged when the peer buffers differ only in the OTHER
agents' reward and terminal memories (observations, next-observations and
actions identical everywhere, and the own agent's reward/terminal
identical) — other agents' data enters only through the observation /
action inputs of the centralized critic, never through the reward or
mask. -/
theorem c3_td_target_own_reward_only (gamma : ℚ)
    (fc : List (List ℚ) → List (List ℚ) → List ℚ)
    (fwds : List (List (List ℚ) → List (List ℚ)))
    (bufs bufs' : List ReplayBuffer) (batch_idxs : List ℕ) (own_idx : ℕ)
    (hlen : bufs.length = bufs'.length)
    (hobs : ∀ k : ℕ, (bufs[k]?).map ReplayBuffer.obs_memory
        = (bufs'[k]?).map ReplayBuffer.obs_memory)
    (hact : ∀ k : ℕ, (bufs[k]?).map ReplayBuffer.action_memory
        = (bufs'[k]?).map ReplayBuffer.action_memory)
    (hnext : ∀ k : ℕ, (bufs[k]?).map ReplayBuffer.obs_next_memory
        = (bufs'[k]?).map ReplayBuffer.obs_next_memory)
    (hrew : (bufs[own_idx]?).map ReplayBuffer.reward_memory
        = (bufs'[own_idx]?).map ReplayBuffer.reward_memory)
    (hterm : (bufs[own_idx]?).map ReplayBuffer.terminal_memory
        = (bufs'[own_idx]?).map ReplayBuffer.terminal_memory) :
    multiLearnTDTarget gamma fc fwds bufs batch_idxs own_idx
      = multiLearnTDTarget gamma fc fwds bufs' batch_idxs own_idx := by
  unfold multiLearnTDTarget
  apply multiTDTarget_congr
  · apply List.ext_getElem?
    intro k
    simp only [List.getElem?_map]
    have hk := hnext k
    rcases hbk : bufs[k]? with _ | b <;> rcases hbk' : bufs'[k]? with _ | b' <;>
      rw [hbk, hbk'] at hk <;> simp_all [ReplayBuffer.get_samples_from_buffer]
  · have hk := hrew
    rw [List.getD_eq_getElem?_getD, List.getD_eq_getElem?_getD,
      List.getElem?_map, List.getElem?_map]
    rcases hbk : bufs[own_idx]? with _ | b <;>
      rcases hbk' : bufs'[own_idx]? with _ | b' <;>
      rw [hbk, hbk'] at hk <;> simp_all [ReplayBuffer.get_samples_from_buffer]
  · have hk := hterm
    rw [List.getD_eq_getElem?_getD, List.getD_eq_getElem?_getD,
      List.getElem?_map, List.getElem?_map]
    rcases hbk : bufs[own_idx]? with _ | b <;>
      rcases hbk' : bufs'[own_idx]? with _ | b' <;>
      rw [hbk, hbk'] at hk <;> simp_all [ReplayBuffer.get_samples_from_buffer]

/-- Agent A's buffer for the C3 witness. -/
def bufA : ReplayBuffer :=
  ⟨4, 2, fun _ => [1], fun _ => [2], fun _ => [3], fun _ => 5, fun _ => 1⟩

/-- Agent B's buffer for the C3 witness. -/
def bufB : ReplayBuffer :=
  ⟨4, 2, fun _ => [6], fun _ => [7], fun _ => [8], fun _ => 9, fun _ => 0⟩

/-- Agent B's buffer with different rewards and terminal flags only. -/
def bufB2 : ReplayBuffer :=
  ⟨4, 2, fun _ => [6], fun _ => [7], fun _ => [8], fun _ => 42, fun _ => 1⟩

/-- Witness for C3: changing only agent B's rewards and terminal flags
leaves agent A's TD target unchanged. -/
theorem c3_witness :
    multiLearnTDTarget (1/2) (fun _ _ => [3]) [fun x => x, fun x => x]
        [bufA, bufB] [0] 0
      = multiLearnTDTarget (1/2) (fun _ _ => [3]) [fun x => x, fun x => x]
        [bufA, bufB2] [0] 0 :=
  c3_td_target_own_reward_only (1/2) (fun _ _ => [3]) [fun x => x, fun x => x]
    [bufA, bufB] [bufA, bufB2] [0] 0 rfl
    (fun k => by rcases k with _ | _ | k <;> rfl)
    (fun k => by rcases k with _ | _ | k <;> rfl)
    (fun k => by rcases k with _ | _ | k <;> rfl)
    rfl rfl

/-- Unfolding one step of `storeAll`. -/
theorem storeAll_cons (b : ReplayBuffer) (t : Transition) (ts : List Transition) :
    storeAll b (t :: ts) =
      storeAll (b.store_transition t.obs t.action t.reward t.obs_next t.done) ts :=
  rfl

/-- `storeAll` appends on the right as a final `store_transition`. -/
theorem storeAll_append (b : ReplayBuffer) (l : List Transition) (t : Transition) :
    storeAll b (l ++ [t]) =
      (storeAll b l).store_transition t.obs t.action t.reward t.obs_next t.done := by
  simp [storeAll, List.foldl_append]

/-- `storeAll` never changes the capacity. -/
theorem storeAll_mem_size (ts : List Transition) :
    ∀ b : ReplayBuffer, (storeAll b ts).mem_size = b.mem_size := by
  induction ts with
  | nil => intro b; rfl
  | cons t ts ih => intro b; rw [storeAll_cons]; exact ih _

/-- `storeAll` advances the cursor by the number of stored transitions. -/
theorem storeAll_mem_cntr (ts : List Transition) :
    ∀ b : ReplayBuffer, (storeAll b ts).mem_cntr = b.mem_cntr + ts.length := by
  induction ts with
  | nil => intro b; simp [storeAll]
  | cons t ts ih =>
    intro b
    rw [storeAll_cons, ih]
    simp [ReplayBuffer.store_transition]
    omega

/-- Last-writer-wins: starting from cursor `0`, if no later stored
transition hits the same slot, slot `i % mem_size` holds the fields of
transition `i` (with the terminal flag inverted). -/
theorem storeAll_last_write (b0 : ReplayBuffer) (h0 : b0.mem_cntr = 0)
    (ts : List Transition) :
    ∀ i, i < ts.length →
      (∀ j, i < j → j < ts.length → j % b0.mem_size ≠ i % b0.mem_size) →
      ((storeAll b0 ts).obs_memory (i % b0.mem_size) = (ts.getD i default).obs
        ∧ (storeAll b0 ts).obs_next_memory (i % b0.mem_size) = (ts.getD i default).obs_next
        ∧ (storeAll b0 ts).action_memory (i % b0.mem_size) = (ts.getD i default).action
        ∧ (storeAll b0 ts).reward_memory (i % b0.mem_size) = (ts.getD i default).reward
        ∧ (storeAll b0 ts).terminal_memory (i % b0.mem_size)
            = 1 - (if (ts.getD i default).done then 1 else 0)) := by
  induction ts using List.reverseRecOn with
  | nil => intro i hi; simp at hi
  | append_singleton l t ih =>
    intro i hi hlast
    rw [storeAll_append]
    have hcnt : (storeAll b0 l).mem_cntr = l.length := by
      rw [storeAll_mem_cntr, h0]; omega
    have hsz : (storeAll b0 l).mem_size = b0.mem_size := storeAll_mem_size l b0
    have hi' : i < l.length + 1 := by simpa using hi
    rcases (by omega : i < l.length ∨ i = l.length) with hlt | heq
    · have hne : i % b0.mem_size ≠ l.length % b0.mem_size :=
        Ne.symm (hlast l.length hlt (by simp))
      have hgd : (l ++ [t]).getD i default = l.getD i default := by
        rw [List.getD_eq_getElem?_getD, List.getD_eq_getElem?_getD,
          List.getElem?_append_left hlt]
      obtain ⟨e1, e2, e3, e4, e5⟩ :=
        ih i hlt (fun j hj1 hj2 => hlast j hj1 (by simp; omega))
      refine ⟨?_, ?_, ?_, ?_, ?_⟩ <;>
        simp only [ReplayBuffer.store_transition, hcnt, hsz, hgd,
          Function.update_noteq hne]
      · exact e1
      · exact e2
      · exact e3
      · exact e4
      · exact e5
    · subst heq
      have hgd : (l ++ [t]).getD l.length default = t := by
        rw [List.getD_eq_getElem?_getD, List.getElem?_append_right (le_refl l.length)]
        simp
      refine ⟨?_, ?_, ?_, ?_, ?_⟩ <;>
        simp only [ReplayBuffer.store_transition, hcnt, hsz, hgd,
          Function.update_same]

/-- C2: (first conjunct) each `store_transition` call writes all five
fields of its transition at slot `mem_cntr % mem_size`, stores the
terminal flag inverted as a continuation mask (`0` at terminal, `1`
otherwise), increments the cursor, and leaves every other slot untouched;
(second conjunct) starting from an empty buffer, after any sequence of at
least `mem_size` stores the buffer holds exactly the most recent
`mem_size` transitions, transition `i` sitting at slot `i % mem_size`. -/
theorem c2_store_transition_circular (b : ReplayBuffer) (t : Transition)
    (b0 : ReplayBuffer) (ts : List Transition)
    (h0 : b0.mem_cntr = 0) (hc : 0 < b0.mem_size)
    (hlen : b0.mem_size ≤ ts.length) :
    ((b.store_transition t.obs t.action t.reward t.obs_next t.done).mem_cntr
          = b.mem_cntr + 1
      ∧ (b.store_transition t.obs t.action t.reward t.obs_next t.done).obs_memory
          (b.mem_cntr % b.mem_size) = t.obs
      ∧ (b.store_transition t.obs t.action t.reward t.obs_next t.done).obs_next_memory
          (b.mem_cntr % b.mem_size) = t.obs_next
      ∧ (b.store_transition t.obs t.action t.reward t.obs_next t.done).action_memory
          (b.mem_cntr % b.mem_size) = t.action
      ∧ (b.store_transition t.obs t.action t.reward t.obs_next t.done).reward_memory
          (b.mem_cntr % b.mem_size) = t.reward
      ∧ (b.store_transition t.obs t.action t.reward t.obs_next t.done).terminal_memory
          (b.mem_cntr % b.mem_size) = (if t.done then 0 else 1)
      ∧ ∀ j, j ≠ b.mem_cntr % b.mem_size →
          ((b.store_transition t.obs t.action t.reward t.obs_next t.done).obs_memory j
              = b.obs_memory j
            ∧ (b.store_transition t.obs t.action t.reward t.obs_next t.done).obs_next_memory j
              = b.obs_next_memory j
            ∧ (b.store_transition t.obs t.action t.reward t.obs_next t.done).action_memory j
              = b.action_memory j
            ∧ (b.store_transition t.obs t.action t.reward t.obs_next t.done).reward_memory j
              = b.reward_memory j
            ∧ (b.store_transition t.obs t.action t.reward t.obs_next t.done).terminal_memory j
              = b.terminal_memory j))
    ∧ ((storeAll b0 ts).mem_cntr = ts.length
      ∧ ∀ i, ts.length - b0.mem_size ≤ i → i < ts.length →
          ((storeAll b0 ts).obs_memory (i % b0.mem_size) = (ts.getD i default).obs
            ∧ (storeAll b0 ts).obs_next_memory (i % b0.mem_size)
                = (ts.getD i default).obs_next
            ∧ (storeAll b0 ts).action_memory (i % b0.mem_size)
                = (ts.getD i default).action
            ∧ (storeAll b0 ts).reward_memory (i % b0.mem_size)
                = (ts.getD i default).reward
            ∧ (storeAll b0 ts).terminal_memory (i % b0.mem_size)
                = (if (ts.getD i default).done then 0 else 1))) := by
  constructor
  · refine ⟨rfl, ?_, ?_, ?_, ?_, ?_, ?_⟩
    · simp [ReplayBuffer.store_transition]
    · simp [ReplayBuffer.store_transition]
    · simp [ReplayBuffer.store_transition]
    · simp [ReplayBuffer.store_transition]
    · simp only [ReplayBuffer.store_transition, Function.update_same]
      cases t.done <;> norm_num
    · intro j hj
      refine ⟨?_, ?_, ?_, ?_, ?_⟩ <;>
        simp [ReplayBuffer.store_transition, Function.update_noteq hj]
  · refine ⟨by rw [storeAll_mem_cntr, h0]; omega, ?_⟩
    intro i h1 h2
    have hlast : ∀ j, i < j → j < ts.length → j % b0.mem_size ≠ i % b0.mem_size := by
      intro j hj1 hj2 hmod
      have hmodeq : Nat.ModEq b0.mem_size i j := hmod.symm
      have hdvd : b0.mem_size ∣ j - i := (Nat.modEq_iff_dvd' (le_of_lt hj1)).mp hmodeq
      have hle : b0.mem_size ≤ j - i := Nat.le_of_dvd (by omega) hdvd
      omega
    obtain ⟨e1, e2, e3, e4, e5⟩ := storeAll_last_write b0 h0 ts i h2 hlast
    refine ⟨e1, e2, e3, e4, ?_⟩
    rw [e5]
    cases (ts.getD i default).done <;> norm_num

/-- The three stored transitions for the C2 witness. -/
def tsC2 : List Transition :=
  [⟨[1], [2], 3, [4], false⟩, ⟨[5], [6], 7, [8], true⟩, ⟨[9], [10], 11, [12], false⟩]

/-- The empty 2-slot buffer for the C2 witness. -/
def b0C2 : ReplayBuffer :=
  ⟨2, 0, fun _ => [], fun _ => [], fun _ => [], fun _ => 0, fun _ => 0⟩

/-- Witness for C2: capacity 2, three stores; the buffer ends with
transition 1 (reward 7, terminal) in slot 1 and transition 2 (reward 11,
non-terminal) in slot 0, and the cursor at 3. -/
theorem c2_witness :
    (storeAll b0C2 tsC2).mem_cntr = 3
    ∧ (storeAll b0C2 tsC2).reward_memory (1 % 2) = 7
    ∧ (storeAll b0C2 tsC2).terminal_memory (1 % 2) = 0
    ∧ (storeAll b0C2 tsC2).reward_memory (2 % 2) = 11
    ∧ (storeAll b0C2 tsC2).terminal_memory (2 % 2) = 1
    ∧ (b0C2.store_transition [1] [2] 3 [4] false).mem_cntr = 1 := by
  have h := c2_store_transition_circular b0C2 ⟨[1], [2], 3, [4], false⟩ b0C2 tsC2
    rfl (by decide) (by decide)
  have w1 := h.2.2 1 (by decide) (by decide)
  have w2 := h.2.2 2 (by decide) (by decide)
  refine ⟨h.2.1, ?_, ?_, ?_, ?_, h.1.1⟩
  · simpa [tsC2, b0C2] using w1.2.2.2.1
  · simpa [tsC2, b0C2] using w1.2.2.2.2
  · simpa [tsC2, b0C2] using w2.2.2.2.1
  · simpa [tsC2, b0C2] using w2.2.2.2.2

/-- `torch.cat(_, dim=1)` succeeds on a nonempty list of tensors sharing
the row count `b`, summing the column counts. -/
theorem catShape1_const_rows (b : ℕ) :
    ∀ ss : List TShape, ss ≠ [] → (∀ s ∈ ss, s.1 = b) →
      ∃ c, catShape1 ss = some (b, c) := by
  intro ss
  induction ss with
  | nil => intro h; exact absurd rfl h
  | cons s ss ih =>
    intro _ hall
    cases ss with
    | nil =>
      refine ⟨s.2, ?_⟩
      have hb : s.1 = b := hall s (by simp)
      simp [catShape1, ← hb]
    | cons s2 ss2 =>
      obtain ⟨c, hc⟩ := ih (by simp) (fun x hx => hall x (List.mem_cons_of_mem _ hx))
      refine ⟨s.2 + c, ?_⟩
      have hb : s.1 = b := hall s (by simp)
      simp [catShape1, hc, hb]

/-- The row count of a successful `torch.cat(_, dim=0)` is the sum of the
row counts of its inputs. -/
theorem catShape0_rows :
    ∀ (ss : List TShape) (v : TShape), catShape0 ss = some v →
      v.1 = (ss.map Prod.fst).sum := by
  intro ss
  induction ss with
  | nil => intro v h; simp [catShape0] at h
  | cons s ss ih =>
    intro v h
    cases ss with
    | nil =>
      simp only [catShape0, Option.some.injEq] at h
      subst h; simp
    | cons s2 ss2 =>
      simp only [catShape0] at h
      rcases hA : catShape0 (s2 :: ss2) with _ | a
      · rw [hA] at h; simp at h
      · rw [hA] at h
        simp only [Option.some_bind] at h
        split_ifs at h with hcols
        · obtain rfl := Option.some.injEq _ _ |>.mp h |>.symm
          have := ih a hA
          simp [this]

/-- C10: once the buffer guard passes, the feature concatenation of
`Agent_Multi.learn` (source line 291, `T.cat(target_next_action_n)` with
the DEFAULT `dim=0` inside a `dim=1` cat) is shape-consistent only with
exactly ONE other agent: with two or more other agents the stacked
other-action tensor has `n_others * batch` rows and the `dim=1` cat with
the `batch`-row joint state raises a shape mismatch (modelled as `none`);
with exactly one other agent it yields a `(batch, cols)` tensor. -/
theorem c10_multiagent_cat_shape (batch : ℕ) (obs_dims act_dims : List ℕ)
    (own_idx : ℕ)
    (hlen : obs_dims.length = act_dims.length)
    (hown : own_idx < act_dims.length)
    (hb : 0 < batch) :
    (3 ≤ act_dims.length →
      inputTargetValueShape batch obs_dims act_dims own_idx = none)
    ∧ (act_dims.length = 2 →
      ∃ cols, inputTargetValueShape batch obs_dims act_dims own_idx
        = some (batch, cols)) := by
  have hosne : obs_dims.map (fun d => ((batch, d) : TShape)) ≠ [] := by
    have : obs_dims ≠ [] := by
      intro hnil; rw [hnil] at hlen; simp at hlen; omega
    simpa using this
  have hosall : ∀ s ∈ obs_dims.map (fun d => ((batch, d) : TShape)), s.1 = batch := by
    intro s hs
    obtain ⟨d, _, rfl⟩ := List.mem_map.mp hs
    rfl
  obtain ⟨C, hC⟩ := catShape1_const_rows batch _ hosne hosall
  have hmem : ∀ s ∈ (act_dims.map fun d => ((batch, d) : TShape)).eraseIdx own_idx,
      s.1 = batch := by
    intro s hs
    have hs' : s ∈ act_dims.map fun d => ((batch, d) : TShape) :=
      (List.eraseIdx_sublist _ _).subset hs
    obtain ⟨d, _, rfl⟩ := List.mem_map.mp hs'
    rfl
  have hlen_others :
      ((act_dims.map fun d => ((batch, d) : TShape)).eraseIdx own_idx).length
        = act_dims.length - 1 := by
    rw [List.length_eraseIdx]
    simp [hown]
  constructor
  · intro h3
    rcases hA : catShape0 ((act_dims.map fun d => ((batch, d) : TShape)).eraseIdx own_idx)
      with _ | v
    · simp [inputTargetValueShape, hC, hA]
    · have hv : v.1 =
          (((act_dims.map fun d => ((batch, d) : TShape)).eraseIdx own_idx).map
            Prod.fst).sum := catShape0_rows _ v hA
      have hrepl : ((act_dims.map fun d => ((batch, d) : TShape)).eraseIdx own_idx).map
          Prod.fst = List.replicate (((act_dims.map fun d =>
            ((batch, d) : TShape)).eraseIdx own_idx).map Prod.fst).length batch := by
        apply List.eq_replicate_of_mem
        intro x hx
        obtain ⟨s, hs, rfl⟩ := List.mem_map.mp hx
        exact hmem s hs
      have hv1 : v.1 =
          ((act_dims.map fun d => ((batch, d) : TShape)).eraseIdx own_idx).length
            * batch := by
        rw [hv, hrepl, List.sum_replicate, smul_eq_mul, List.length_map]
      have hge : 2 ≤ ((act_dims.map fun d =>
          ((batch, d) : TShape)).eraseIdx own_idx).length := by omega
      have hlt : batch < v.1 := by
        have h2 : 2 * batch ≤ ((act_dims.map fun d =>
            ((batch, d) : TShape)).eraseIdx own_idx).length * batch :=
          Nat.mul_le_mul_right batch hge
        omega
      have hne : batch ≠ v.1 := by omega
      simp [inputTargetValueShape, hC, hA, catShape1, hne]
  · intro h2
    have h1 : ((act_dims.map fun d => ((batch, d) : TShape)).eraseIdx own_idx).length
        = 1 := by omega
    obtain ⟨x, hx⟩ := List.length_eq_one.mp h1
    have hx1 : x.1 = batch := hmem x (by rw [hx]; simp)
    refine ⟨C + x.2, ?_⟩
    simp [inputTargetValueShape, hC, hx, catShape0, catShape1, hx1]

/-- Witness for C10: three agents (two others) with batch 1 raise the
shape mismatch; two agents (one other) succeed. -/
theorem c10_witness :
    inputTargetValueShape 1 [2, 3, 4] [1, 1, 1] 0 = none
    ∧ ∃ cols, inputTargetValueShape 1 [2, 3] [1, 1] 0 = some (1, cols) :=
  ⟨(c10_multiagent_cat_shape 1 [2, 3, 4] [1, 1, 1] 0 rfl (by decide) (by decide)).1
      (by decide),
    (c10_multiagent_cat_shape 1 [2, 3] [1, 1] 0 rfl (by decide) (by decide)).2 rfl⟩
